import Mathlib

/-!
Verification development for the StudyBuddy repository.

The Python source is shallowly embedded: strings are Lean `String`
(operated on through their `List Char` data, mirroring Python's
`str.split`, `str.strip`, `str.join`, slicing and `in` checks),
dictionaries decoded from JSON are records of optional fields, the
remote model gateway is an oracle value `Except String String` giving
the outcome of the (single) call the code would make, and Python
exceptions are `Except` errors.
-/

namespace StudyBuddy

/-! ## Character and string helpers mirroring Python's str methods -/

/-- ASCII whitespace, as stripped by Python's `str.strip` and matched by
regex `\s` on the ASCII range. -/
def isSpaceChar (c : Char) : Bool :=
  c = ' ' || c = '\t' || c = '\n' || c = '\r' || c = Char.ofNat 11 || c = Char.ofNat 12

/-- Python `str.strip()` on the character list: drop whitespace from both ends. -/
def trimChars (l : List Char) : List Char :=
  ((l.dropWhile isSpaceChar).reverse.dropWhile isSpaceChar).reverse

/-- Python `str.strip()` as a String operation. -/
def pyStrip (s : String) : String := String.mk (trimChars s.data)

/-- Python `str.split(sep)` for a one-character separator: keeps empty chunks,
`"".split(sep) == [""]`. -/
def splitOnChar (sep : Char) : List Char → List (List Char)
  | [] => [[]]
  | c :: rest =>
    let r := splitOnChar sep rest
    if c = sep then [] :: r
    else (c :: r.headD []) :: r.tail

/-- Python `str.split("\n")`. -/
def splitNL (l : List Char) : List (List Char) := splitOnChar '\n' l

/-- Python `"\n".join(lines)` on character lists. -/
def joinNL : List (List Char) → List Char
  | [] => []
  | [l] => l
  | l :: ls => l ++ '\n' :: joinNL ls

/-- Whether the list contains two consecutive newline characters. -/
def hasNN : List Char → Bool
  | [] => false
  | [_] => false
  | a :: b :: rest => (a = '\n' && b = '\n') || hasNN (b :: rest)

/-- Whether the list contains three consecutive newline characters
(Python's `'\n\n\n' in text`). -/
def hasTriple : List Char → Bool
  | [] => false
  | [_] => false
  | [_, _] => false
  | a :: b :: c :: rest => (a = '\n' && b = '\n' && c = '\n') || hasTriple (b :: c :: rest)

/-- Python `text.replace('\n\n\n', '\n\n')`: replace all non-overlapping
occurrences left to right. -/
def replaceTriple : List Char → List Char
  | '\n' :: '\n' :: '\n' :: rest => '\n' :: '\n' :: replaceTriple rest
  | c :: rest => c :: replaceTriple rest
  | [] => []

/-- The `while '\n\n\n' in cleaned_text:` loop of `_clean_text`, with explicit
fuel (each replacement shortens the string, so fuel = length suffices). -/
def collapseLoop : Nat → List Char → List Char
  | 0, s => s
  | Nat.succ fuel, s => if hasTriple s then collapseLoop fuel (replaceTriple s) else s

/-! ## PDFProcessor (src/utils/pdf_processor.py) -/

/-- `PDFProcessor._clean_text`: split into lines, strip each, drop empties,
join with newlines, then collapse triple newlines while present. -/
def cleanLines (l : List Char) : List (List Char) :=
  ((splitNL l).map trimChars).filter (fun x => x ≠ [])

def clean_text (s : String) : String :=
  let joined := joinNL (cleanLines s.data)
  String.mk (collapseLoop joined.length joined)

/-- `PDFProcessor.extract_text`, with the per-page outputs of the external
PDF library as input (`none` models a page whose `extract_text()` returned
`None`).  Pages with truthy text are concatenated with `"\n\n"`; if the
result strips to empty the method raises, otherwise it returns the cleaned
text.  Errors carry the `"Failed to process PDF: "` wrapper added by the
enclosing `except` clause. -/
def extract_text (pageTexts : List (Option String)) : Except String String :=
  let extracted : String := String.join (pageTexts.filterMap (fun pt =>
    match pt with
    | none => none
    | some t => if t = "" then none else some (t ++ "\n\n")))
  if trimChars extracted.data = [] then
    Except.error "Failed to process PDF: No text could be extracted from the PDF"
  else
    Except.ok (clean_text extracted)

/-- Python `str.split()` with no argument: split on whitespace runs,
discarding empty chunks.  Auxiliary accumulator holds the current word
reversed. -/
def splitWSAux : List Char → List Char → List (List Char)
  | [], acc => if acc = [] then [] else [acc.reverse]
  | c :: rest, acc =>
    if isSpaceChar c then
      if acc = [] then splitWSAux rest []
      else acc.reverse :: splitWSAux rest []
    else splitWSAux rest (c :: acc)

def splitWS (l : List Char) : List (List Char) := splitWSAux l []

/-- Python `text.split("\n\n")`: split on the two-character separator,
non-overlapping, left to right. -/
def splitNN : List Char → List (List Char)
  | [] => [[]]
  | [c] => [[c]]
  | a :: b :: rest =>
    if a = '\n' && b = '\n' then [] :: splitNN rest
    else
      let r := splitNN (b :: rest)
      (a :: r.headD []) :: r.tail

structure TextStats where
  word_count : Nat
  sentence_count : Nat
  paragraph_count : Nat
  character_count : Nat
deriving Repr, DecidableEq

/-- `PDFProcessor.get_text_stats`. -/
def get_text_stats (text : String) : TextStats :=
  { word_count := (splitWS text.data).length
  , sentence_count := ((splitOnChar '.' text.data).filter (fun s => trimChars s ≠ [])).length
  , paragraph_count := ((splitNN text.data).filter (fun p => trimChars p ≠ [])).length
  , character_count := text.data.length }

/-! ## QuizGenerator (src/utils/quiz_generator.py) -/

/-- One entry of the JSON array decoded from the model response (a Python
dict): each schema field is present or absent.  Field values follow the
documented quiz schema (strings, and a string list for `options`). -/
structure RawQuestion where
  question : Option String
  type : Option String
  options : Option (List String)
  correct_answer : Option String
  expected_answer : Option String
  explanation : Option String
deriving Repr, DecidableEq

/-- The body of the validation loop of `QuizGenerator._validate_questions`
for a single entry: `none` means the entry is dropped (`continue`), `some q`
means `q` is appended to the validated list. -/
def validate_one (q : RawQuestion) : Option RawQuestion :=
  if q.question.isNone || q.type.isNone then none
  else if q.type = some "multiple_choice" then
    match q.options, q.correct_answer with
    | some opts, some ca =>
      if opts.length < 2 then none
      else if ca ∈ opts then some q
      else some { q with correct_answer := opts.head? }
    | some _, none => none
    | none, _ => none
  else if q.type = some "short_answer" then
    if q.expected_answer.isNone then some { q with expected_answer := some "Answer not provided" }
    else some q
  else some q

/-- `QuizGenerator._validate_questions`: examine at most `expected_count`
entries (the loop breaks at index `expected_count`), keeping those
`validate_one` accepts. -/
def validate_questions : List RawQuestion → Nat → List RawQuestion
  | _, 0 => []
  | [], _ + 1 => []
  | q :: rest, n + 1 =>
    match validate_one q with
    | some q' => q' :: validate_questions rest n
    | none => validate_questions rest n

def mcFallbackOptions : List String :=
  ["A) Option 1", "B) Option 2", "C) Option 3", "D) Option 4"]

/-- The question built for index `i` in `_create_fallback_questions`
(the `i < len(question_lines)` conditional is kept even though the range
bound makes it always true). -/
def fallback_question (quiz_type : String) (question_lines : List (List Char)) (i : Nat) : RawQuestion :=
  if quiz_type = "multiple_choice" || quiz_type = "mixed" then
    { question := some (if i < question_lines.length then String.mk (question_lines.getD i [])
        else "What is a key concept from the study material? (Question " ++ toString (i+1) ++ ")")
    , type := some "multiple_choice"
    , options := some mcFallbackOptions
    , correct_answer := some "A) Option 1"
    , expected_answer := none
    , explanation := some "This is a fallback question due to parsing issues." }
  else
    { question := some (if i < question_lines.length then String.mk (question_lines.getD i [])
        else "Explain a key concept from the study material. (Question " ++ toString (i+1) ++ ")")
    , type := some "short_answer"
    , options := none
    , correct_answer := none
    , expected_answer := some "Please refer to the study material for the complete answer."
    , explanation := none }

/-- The single generic question emitted when no line of the response
contains a question mark. -/
def summary_fallback : RawQuestion :=
  { question := some "What are the main topics covered in this study material?"
  , type := some "short_answer"
  , options := none
  , correct_answer := none
  , expected_answer := some "Please summarize the key topics from the uploaded PDF."
  , explanation := none }

/-- `QuizGenerator._create_fallback_questions`. -/
def create_fallback_questions (response : String) (quiz_type : String) (num_questions : Nat) : List RawQuestion :=
  let question_lines := (splitNL response.data).filter (fun l => l.contains '?')
  let qs := (List.range (min num_questions (min question_lines.length 3))).map
      (fallback_question quiz_type question_lines)
  if qs = [] then [summary_fallback] else qs

/-- Regex search `re.search(r'\[.*\]', response, re.DOTALL)` succeeds exactly
when some `'['` occurs strictly before some `']'`. -/
def hasBracketSpan : List Char → Bool
  | [] => false
  | c :: rest => (c = '[' && rest.contains ']') || hasBracketSpan rest

/-- Outcome of `json.loads` on the bracketed span: success yields the decoded
array of dict entries, failure models a raised `json.JSONDecodeError`. -/
inductive JsonDecode where
  | ok (questions : List RawQuestion)
  | fail
deriving Repr, DecidableEq

/-- `QuizGenerator._parse_quiz_response`.  When the regex finds a span,
decode success leads to validation and decode failure to the (unvalidated)
fallback built in the `except json.JSONDecodeError` clause; with no span the
fallback list is built inside the `try` block and then validated. -/
def parse_quiz_response (response : String) (quiz_type : String) (num_questions : Nat)
    (decoded : JsonDecode) : List RawQuestion :=
  if hasBracketSpan response.data then
    match decoded with
    | .ok qs => validate_questions qs num_questions
    | .fail => create_fallback_questions response quiz_type num_questions
  else
    validate_questions (create_fallback_questions response quiz_type num_questions) num_questions

/-- Error taxonomy of the spec: the two `ValueError`s raised by input
validation are invalid-input errors, a failed gateway call is a generation
error; `generate_quiz` re-wraps both with its `"Quiz generation failed"`
prefix, so the constructor records the original message. -/
inductive QuizError where
  | invalidInput (msg : String)
  | generation (msg : String)
deriving Repr, DecidableEq

/-- `QuizGenerator.generate_quiz`.  `gateway` is the outcome of the one
`generate_quiz_content` call the method would make; `decoded` the outcome of
`json.loads` on a bracketed span of the response, if any. -/
def generate_quiz (pdf_content : String) (quiz_type : String) (num_questions : Int)
    (gateway : Except String String) (decoded : JsonDecode) :
    Except QuizError (List RawQuestion) :=
  if trimChars pdf_content.data = [] then
    Except.error (QuizError.invalidInput "PDF content is empty")
  else if num_questions < 1 || num_questions > 10 then
    Except.error (QuizError.invalidInput "Number of questions must be between 1 and 10")
  else
    match gateway with
    | .error e => Except.error (QuizError.generation e)
    | .ok response => Except.ok (parse_quiz_response response quiz_type num_questions.toNat decoded)

/-- Condition `i in answers and answers[i] == question['correct_answer']`
of `get_quiz_statistics` (the `answers` dict is modeled as an association
list with distinct keys). -/
def mc_is_correct (answers : List (Nat × String)) (i : Nat) (q : RawQuestion) : Bool :=
  match answers.lookup i with
  | some a => q.correct_answer == some a
  | none => false

/-- The counting loop of `get_quiz_statistics`: pairs
`(mc_questions, correct_answers)` accumulated over `enumerate(questions)`
starting at index `i` (the Python loop adds left to right; addition order
is immaterial). -/
def quiz_counts (answers : List (Nat × String)) : Nat → List RawQuestion → Nat × Nat
  | _, [] => (0, 0)
  | i, q :: rest =>
    let tailCounts := quiz_counts answers (i + 1) rest
    if q.type = some "multiple_choice" then
      (tailCounts.1 + 1, if mc_is_correct answers i q then tailCounts.2 + 1 else tailCounts.2)
    else tailCounts

structure QuizStats where
  total_questions : Nat
  answered_questions : Nat
  multiple_choice_questions : Nat
  correct_answers : Nat
  accuracy_percentage : ℚ
  completion_percentage : ℚ
deriving Repr, DecidableEq

/-- `QuizGenerator.get_quiz_statistics` (Python float division modeled
exactly over the rationals). -/
def get_quiz_statistics (questions : List RawQuestion) (answers : List (Nat × String)) : QuizStats :=
  let total_questions := questions.length
  let answered_questions := answers.length
  let counts := quiz_counts answers 0 questions
  let mc_questions := counts.1
  let correct_answers := counts.2
  { total_questions := total_questions
  , answered_questions := answered_questions
  , multiple_choice_questions := mc_questions
  , correct_answers := correct_answers
  , accuracy_percentage :=
      if mc_questions > 0 then (correct_answers : ℚ) / (mc_questions : ℚ) * 100 else 0
  , completion_percentage :=
      if total_questions > 0 then (answered_questions : ℚ) / (total_questions : ℚ) * 100 else 0 }

/-! ## ChatManager (src/utils/chat_manager.py)

The md5 content hash is an external library call, passed in as a function
parameter `hash`; the Gemini gateway is passed as the outcome each call
would have.  Call counts are returned explicitly so that cache behaviour
("without a new generation call") is observable. -/

/-- One entry of `st.session_state.chat_history`. -/
structure Msg where
  role : String
  content : String
deriving Repr, DecidableEq

/-- The mutable state of a `ChatManager`: the `pdf_cache` dict, keyed by the
hex digest, valued by the cached key points (the stored singleton dict
`{"key_points": ...}` is modeled by its only field). -/
structure ChatState where
  pdf_cache : List (String × String)
deriving Repr, DecidableEq

/-- `ChatManager._extract_key_points`: returns the key points, the updated
state, and the number of gateway calls made (0 on a cache hit, 1 otherwise).
A failed generation call is caught and falls back to the first 2000
characters of the document, without caching. -/
def extract_key_points (hash : String → String) (gateway : Except String String)
    (st : ChatState) (pdf_content : String) : String × ChatState × Nat :=
  let pdf_hash := hash pdf_content
  match st.pdf_cache.lookup pdf_hash with
  | some key_points => (key_points, st, 0)
  | none =>
    match gateway with
    | .ok key_points => (key_points, ⟨(pdf_hash, key_points) :: st.pdf_cache⟩, 1)
    | .error _ => (String.mk (pdf_content.data.take 2000), st, 1)

/-- `ChatManager.clear_cache`. -/
def clear_cache (_st : ChatState) : ChatState := { pdf_cache := [] }

/-- Python `str.capitalize()`. -/
def pyCapitalize (s : String) : String :=
  match s.data with
  | [] => ""
  | c :: rest => String.mk (c.toUpper :: rest.map Char.toLower)

/-- `ChatManager._build_chat_context`: key points (truncated to 2000
characters) when the document is non-empty, then the last 6 history turns
rendered as `Role: content`; parts joined by blank lines. -/
def build_chat_context (hash : String → String) (kpGateway : Except String String)
    (st : ChatState) (history : List Msg) (pdf_content : String) :
    String × ChatState × Nat :=
  let kpPart :=
    if pdf_content ≠ "" then
      let r := extract_key_points hash kpGateway st pdf_content
      (["Document Key Points:\n" ++ String.mk (r.1.data.take 2000)], r.2.1, r.2.2)
    else ([], st, 0)
  let parts :=
    if history ≠ [] then
      kpPart.1 ++ ["Recent Conversation:\n" ++ String.intercalate "\n"
        ((history.drop (history.length - 6)).map (fun m => pyCapitalize m.role ++ ": " ++ m.content))]
    else kpPart.1
  (String.intercalate "\n\n" parts, kpPart.2.1, kpPart.2.2)

/-- Regex `\w` of `_format_response`, on the ASCII range. -/
def isWordChar (c : Char) : Bool := c.isAlphanum || c = '_'

/-- `re.sub(r'\.(\w)', r'. \1', s)`: left-to-right non-overlapping
replacement, scanning resumes after each match. -/
def spaceAfterPeriods : List Char → List Char
  | [] => []
  | ['.'] => ['.']
  | '.' :: c :: rest =>
    if isWordChar c then '.' :: ' ' :: c :: spaceAfterPeriods rest
    else '.' :: spaceAfterPeriods (c :: rest)
  | c :: rest => c :: spaceAfterPeriods rest

/-- Effect of one leftmost greedy match of `\n\s*\n\s*\n → \n\n` on a
maximal whitespace run: a run holding at least three newlines keeps its
segment before the first and after the last newline and collapses the rest
to two newlines; other runs are untouched. -/
def collapseRun (run : List Char) : List Char :=
  if 3 ≤ (run.filter (fun c => c = '\n')).length then
    run.takeWhile (fun c => c ≠ '\n') ++ '\n' :: '\n' ::
      ((run.reverse.takeWhile (fun c => c ≠ '\n')).reverse)
  else run

/-- `re.sub(r'\n\s*\n\s*\n', '\n\n', s)`: matches lie inside maximal
whitespace runs, so the string is processed run by run; the accumulator
holds the pending whitespace run in reverse. -/
def collapseBlankAux : List Char → List Char → List Char
  | [], run => collapseRun run.reverse
  | c :: rest, run =>
    if isSpaceChar c then collapseBlankAux rest (c :: run)
    else collapseRun run.reverse ++ c :: collapseBlankAux rest []

def collapseBlank (l : List Char) : List Char := collapseBlankAux l []

/-- `ChatManager._format_response`. -/
def format_response (response : String) : String :=
  String.mk (collapseBlank (spaceAfterPeriods (trimChars response.data)))

/-- `ChatManager.get_response`.  `kpGateway` is the outcome the key-point
summarization call would have, `answerGateway` the outcome of the final
answer call (already carrying the client's own wrapper on failure); any
exception is re-raised with the `"Failed to get chat response: "` prefix.
On success the formatted answer and the updated cache state are returned. -/
def get_response (hash : String → String) (kpGateway answerGateway : Except String String)
    (st : ChatState) (history : List Msg) (user_question pdf_content : String) :
    Except String (String × ChatState) :=
  if trimChars user_question.data = [] then
    Except.error "Failed to get chat response: Question cannot be empty"
  else
    let ctx := build_chat_context hash kpGateway st history pdf_content
    match answerGateway with
    | .error e => Except.error ("Failed to get chat response: " ++ e)
    | .ok response => Except.ok (format_response response, ctx.2.1)

/-! ## Spec-side predicates (used to state the claims) -/

/-- The multiple-choice invariant of the spec: a multiple-choice question
has an options list of at least 2 entries containing its correct answer;
questions of other types are unconstrained. -/
def mcOk (q : RawQuestion) : Bool :=
  if q.type = some "multiple_choice" then
    match q.options, q.correct_answer with
    | some opts, some ca => opts.contains ca && 2 ≤ opts.length
    | _, _ => false
  else true

/-- Shape of a generic fallback question for the requested kind: the fixed
four dummy options with the first marked correct for `multiple_choice` (and
`mixed`), the fixed short-answer stub otherwise. -/
def fallback_shape (quiz_type : String) (q : RawQuestion) : Bool :=
  if quiz_type = "multiple_choice" || quiz_type = "mixed" then
    q.type == some "multiple_choice" && q.options == some mcFallbackOptions &&
      q.correct_answer == some "A) Option 1" &&
      q.explanation == some "This is a fallback question due to parsing issues."
  else
    q.type == some "short_answer" &&
      q.expected_answer == some "Please refer to the study material for the complete answer."

/-- A line has no leading and no trailing whitespace (the head of the
reversed line is its last character). -/
def lineClean (l : List Char) : Bool :=
  (match l.head? with | some c => !isSpaceChar c | none => true) &&
  (match l.reverse.head? with | some c => !isSpaceChar c | none => true)

/-! # Quiz engine lemmas -/

theorem validate_one_mcOk {q q' : RawQuestion} (h : validate_one q = some q') :
    mcOk q' = true := by
  unfold validate_one at h
  split at h
  · exact Option.noConfusion h
  · rename_i hfields
    split at h
    · rename_i htype
      split at h
      · rename_i opts ca hopts hca
        split at h
        · exact Option.noConfusion h
        · rename_i hlen
          split at h
          · rename_i hmem
            cases h
            simp [mcOk, htype, hopts, hca, hmem]
            omega
          · rename_i hmem
            cases h
            have hlen2 : 2 ≤ opts.length := Nat.not_lt.mp (by assumption)
            rcases opts with _ | ⟨o, os⟩
            · simp at hlen2
            · simp [mcOk, htype, hopts]
              simpa using hlen2
      · exact Option.noConfusion h
      · exact Option.noConfusion h
    · rename_i htype
      split at h
      · split at h <;> (cases h; simp [mcOk, htype])
      · cases h; simp [mcOk, htype]

theorem validate_questions_mcOk : ∀ (qs : List RawQuestion) (n : Nat) (q : RawQuestion),
    q ∈ validate_questions qs n → mcOk q = true := by
  intro qs
  induction qs with
  | nil => intro n q h; cases n <;> simp [validate_questions] at h
  | cons p rest ih =>
    intro n q h
    cases n with
    | zero => simp [validate_questions] at h
    | succ m =>
      cases hv : validate_one p with
      | none => rw [validate_questions, hv] at h; exact ih m q h
      | some p' =>
        rw [validate_questions, hv] at h
        rcases List.mem_cons.mp h with h1 | h2
        · exact h1 ▸ validate_one_mcOk hv
        · exact ih m q h2

theorem validate_questions_length_le : ∀ (qs : List RawQuestion) (n : Nat),
    (validate_questions qs n).length ≤ n := by
  intro qs
  induction qs with
  | nil => intro n; cases n <;> simp [validate_questions]
  | cons p rest ih =>
    intro n
    cases n with
    | zero => simp [validate_questions]
    | succ m =>
      cases hv : validate_one p with
      | none => rw [validate_questions, hv]; exact Nat.le_succ_of_le (ih m)
      | some p' => rw [validate_questions, hv]; simpa using Nat.succ_le_succ (ih m)

theorem validate_questions_id : ∀ (qs : List RawQuestion) (n : Nat),
    (∀ q ∈ qs, validate_one q = some q) → qs.length ≤ n →
    validate_questions qs n = qs := by
  intro qs
  induction qs with
  | nil => intro n _ _; cases n <;> rfl
  | cons p rest ih =>
    intro n hall hlen
    cases n with
    | zero => simp at hlen
    | succ m =>
      rw [validate_questions, hall p (by simp)]
      rw [ih m (fun q hq => hall q (List.mem_cons_of_mem _ hq)) (by simpa using hlen)]

theorem validate_one_fallback (quiz_type : String) (lines : List (List Char)) (i : Nat) :
    validate_one (fallback_question quiz_type lines i) =
      some (fallback_question quiz_type lines i) := by
  unfold fallback_question
  split
  · simp [validate_one, mcFallbackOptions]
  · simp [validate_one]

theorem validate_one_summary : validate_one summary_fallback = some summary_fallback := by
  simp [validate_one, summary_fallback]

theorem mcOk_fallback (quiz_type : String) (lines : List (List Char)) (i : Nat) :
    mcOk (fallback_question quiz_type lines i) = true := by
  unfold fallback_question
  split
  · simp [mcOk, mcFallbackOptions]
  · simp [mcOk]

theorem mcOk_summary : mcOk summary_fallback = true := by
  simp [mcOk, summary_fallback]

theorem create_fallback_mem : ∀ (r : String) (qt : String) (n : Nat) (q : RawQuestion),
    q ∈ create_fallback_questions r qt n →
    (min n (min ((splitNL r.data).filter (fun l => l.contains '?')).length 3) = 0 ∧
        q = summary_fallback) ∨
      ∃ i, i < min n (min ((splitNL r.data).filter (fun l => l.contains '?')).length 3) ∧
        q = fallback_question qt ((splitNL r.data).filter (fun l => l.contains '?')) i := by
  intro r qt n q h
  simp only [create_fallback_questions] at h
  split at h
  · rename_i hnil
    simp only [List.map_eq_nil_iff, List.range_eq_nil] at hnil
    simp at h
    exact Or.inl ⟨hnil, h⟩
  · right
    rcases List.mem_map.mp h with ⟨i, hi, rfl⟩
    exact ⟨i, List.mem_range.mp hi, rfl⟩

theorem create_fallback_mcOk (r : String) (qt : String) (n : Nat) (q : RawQuestion)
    (h : q ∈ create_fallback_questions r qt n) : mcOk q = true := by
  rcases create_fallback_mem r qt n q h with ⟨_, rfl⟩ | ⟨i, _, rfl⟩
  · exact mcOk_summary
  · exact mcOk_fallback qt _ i

theorem create_fallback_length_le (r : String) (qt : String) (n : Nat) (hn : 1 ≤ n) :
    (create_fallback_questions r qt n).length ≤ n := by
  simp only [create_fallback_questions]
  split
  · simp [hn]
  · simp only [List.length_map, List.length_range]
    exact Nat.min_le_left n _

theorem parse_quiz_response_mcOk (r : String) (qt : String) (n : Nat) (d : JsonDecode)
    (q : RawQuestion) (h : q ∈ parse_quiz_response r qt n d) : mcOk q = true := by
  unfold parse_quiz_response at h
  split at h
  · cases d with
    | ok qs => exact validate_questions_mcOk qs n q h
    | fail => exact create_fallback_mcOk r qt n q h
  · exact validate_questions_mcOk _ n q h

theorem parse_quiz_response_length_le (r : String) (qt : String) (n : Nat) (d : JsonDecode)
    (hn : 1 ≤ n) : (parse_quiz_response r qt n d).length ≤ n := by
  unfold parse_quiz_response
  split
  · cases d with
    | ok qs => exact validate_questions_length_le qs n
    | fail => exact create_fallback_length_le r qt n hn
  · exact validate_questions_length_le _ n

theorem fallback_shape_fallback (quiz_type : String) (lines : List (List Char)) (i : Nat) :
    fallback_shape quiz_type (fallback_question quiz_type lines i) = true := by
  unfold fallback_question fallback_shape
  split
  · simp
  · simp

theorem fallback_question_text (quiz_type : String) (lines : List (List Char)) (i : Nat)
    (hi : i < lines.length) :
    (fallback_question quiz_type lines i).question = some (String.mk (lines.getD i [])) := by
  unfold fallback_question
  split <;> simp [hi]

theorem validate_fallback_id (r : String) (qt : String) (n : Nat) (hn : 1 ≤ n) :
    validate_questions (create_fallback_questions r qt n) n =
      create_fallback_questions r qt n := by
  apply validate_questions_id
  · intro q hq
    rcases create_fallback_mem r qt n q hq with ⟨_, rfl⟩ | ⟨i, _, rfl⟩
    · exact validate_one_summary
    · exact validate_one_fallback qt _ i
  · exact create_fallback_length_le r qt n hn

/-! # Claim theorems: quiz engine -/

/-- C1: Every quiz returned by `generate_quiz` — whether built from decoded
JSON or from fallback construction — has, for every item of type
multiple_choice, a correct answer that is a member of its options list and
at least 2 options; and a decoded multiple_choice entry having question,
type, correct_answer and at least 2 options, but whose correct_answer is
not in options, is kept with its correct_answer replaced by the first
option. -/
theorem quiz_mc_invariant_and_repair :
    (∀ (pdf qt : String) (n : Int) (gw : Except String String) (d : JsonDecode)
        (L : List RawQuestion) (q : RawQuestion),
        generate_quiz pdf qt n gw d = Except.ok L → q ∈ L → mcOk q = true) ∧
    (∀ (q : RawQuestion) (rest : List RawQuestion) (n : Nat) (opts : List String) (ca : String),
        q.question.isSome → q.type = some "multiple_choice" →
        q.options = some opts → q.correct_answer = some ca →
        2 ≤ opts.length → ca ∉ opts →
        validate_questions (q :: rest) (n + 1) =
          { q with correct_answer := opts.head? } :: validate_questions rest n) := by
  constructor
  · intro pdf qt n gw d L q hgen hq
    cases gw with
    | error e =>
      unfold generate_quiz at hgen
      split at hgen
      · exact Except.noConfusion hgen
      · split at hgen
        · exact Except.noConfusion hgen
        · exact Except.noConfusion hgen
    | ok response =>
      unfold generate_quiz at hgen
      split at hgen
      · exact Except.noConfusion hgen
      · split at hgen
        · exact Except.noConfusion hgen
        · cases hgen
          exact parse_quiz_response_mcOk response qt n.toNat d q hq
  · intro q rest n opts ca hq htype hopts hca hlen hmem
    have hv : validate_one q = some { q with correct_answer := opts.head? } := by
      rcases Option.isSome_iff_exists.mp hq with ⟨qq, hqq⟩
      simp [validate_one, htype, hopts, hca, hqq, hmem, Nat.not_lt.mpr hlen]
    rw [validate_questions, hv]

/-- Witness for C1: a decoded multiple-choice entry with correct answer
`"Z"` outside its two options is repaired to the first option, and the
repaired question (as returned by `generate_quiz`) satisfies the invariant. -/
theorem quiz_mc_invariant_and_repair_witness :
    mcOk { question := some "Q1", type := some "multiple_choice",
           options := some ["A) 1", "B) 2"], correct_answer := some "A) 1",
           expected_answer := none, explanation := none } = true ∧
    validate_questions
        [{ question := some "Q1", type := some "multiple_choice",
           options := some ["A) 1", "B) 2"], correct_answer := some "Z",
           expected_answer := none, explanation := none }] 1 =
      [{ question := some "Q1", type := some "multiple_choice",
         options := some ["A) 1", "B) 2"], correct_answer := some "A) 1",
         expected_answer := none, explanation := none }] :=
  ⟨quiz_mc_invariant_and_repair.1 "doc" "multiple_choice" 2 (Except.ok "[j]")
      (JsonDecode.ok
        [{ question := some "Q1", type := some "multiple_choice",
           options := some ["A) 1", "B) 2"], correct_answer := some "Z",
           expected_answer := none, explanation := none }])
      [{ question := some "Q1", type := some "multiple_choice",
         options := some ["A) 1", "B) 2"], correct_answer := some "A) 1",
         expected_answer := none, explanation := none }]
      { question := some "Q1", type := some "multiple_choice",
        options := some ["A) 1", "B) 2"], correct_answer := some "A) 1",
        expected_answer := none, explanation := none }
      rfl (by simp),
   quiz_mc_invariant_and_repair.2
      { question := some "Q1", type := some "multiple_choice",
        options := some ["A) 1", "B) 2"], correct_answer := some "Z",
        expected_answer := none, explanation := none }
      [] 0 ["A) 1", "B) 2"] "Z" rfl rfl rfl rfl (by decide) (by decide)⟩

/-- C2: Whenever `generate_quiz` returns a list of questions, its length is
at most the requested count (dropped entries are not backfilled); in
particular this holds for every count in 1..10, every non-empty document
and every model response. -/
theorem generate_quiz_length_le_count :
    ∀ (pdf qt : String) (n : Int) (gw : Except String String) (d : JsonDecode)
      (L : List RawQuestion),
      generate_quiz pdf qt n gw d = Except.ok L → (L.length : Int) ≤ n := by
  intro pdf qt n gw d L hgen
  cases gw with
  | error e =>
    unfold generate_quiz at hgen
    split at hgen
    · exact Except.noConfusion hgen
    · split at hgen
      · exact Except.noConfusion hgen
      · exact Except.noConfusion hgen
  | ok response =>
    unfold generate_quiz at hgen
    split at hgen
    · exact Except.noConfusion hgen
    · split at hgen
      · exact Except.noConfusion hgen
      · rename_i hrange
        simp only [Bool.or_eq_true, decide_eq_true_eq, not_or] at hrange
        cases hgen
        have h1 : 1 ≤ n.toNat := by omega
        have h2 := parse_quiz_response_length_le response qt n.toNat d h1
        omega

/-- Witness for C2: a concrete run of `generate_quiz` (count 3, non-JSON
response with a single question line) returns one question, within the
requested count. -/
theorem generate_quiz_length_le_count_witness :
    generate_quiz "doc" "short_answer" 3 (Except.ok "What is X?") JsonDecode.fail =
      Except.ok
        [{ question := some "What is X?", type := some "short_answer",
           options := none, correct_answer := none,
           expected_answer := some "Please refer to the study material for the complete answer.",
           explanation := none }] ∧
    (([{ question := some "What is X?", type := some "short_answer",
         options := none, correct_answer := none,
         expected_answer := some "Please refer to the study material for the complete answer.",
         explanation := none }] : List RawQuestion).length : Int) ≤ 3 :=
  ⟨rfl,
   generate_quiz_length_le_count "doc" "short_answer" 3 (Except.ok "What is X?")
      JsonDecode.fail _ rfl⟩

/-- C3: `generate_quiz` fails with an invalid-input error exactly when the
document strips to empty or the count is outside 1..10; with a non-empty
document and count 11 the message is the `"between 1 and 10"` one; and in
the invalid cases the result does not depend on the gateway outcome (the
check happens before any gateway call). -/
theorem generate_quiz_invalid_input_iff :
    ∀ (pdf qt : String) (n : Int) (gw : Except String String) (d : JsonDecode),
      ((∃ m, generate_quiz pdf qt n gw d = Except.error (QuizError.invalidInput m)) ↔
          (trimChars pdf.data = [] ∨ n < 1 ∨ 10 < n)) ∧
      (trimChars pdf.data ≠ [] → n = 11 →
          generate_quiz pdf qt n gw d =
            Except.error
              (QuizError.invalidInput "Number of questions must be between 1 and 10")) ∧
      ((trimChars pdf.data = [] ∨ n < 1 ∨ 10 < n) →
          ∀ (gw' : Except String String) (d' : JsonDecode),
            generate_quiz pdf qt n gw d = generate_quiz pdf qt n gw' d') := by
  intro pdf qt n gw d
  by_cases hdoc : trimChars pdf.data = []
  · refine ⟨⟨fun _ => Or.inl hdoc, fun _ => ⟨"PDF content is empty", ?_⟩⟩, ?_, ?_⟩
    · simp [generate_quiz, hdoc]
    · intro hne _; exact absurd hdoc hne
    · intro _ gw' d'; simp [generate_quiz, hdoc]
  · by_cases hrange : n < 1 ∨ 10 < n
    · have hcond : (decide (n < 1) || decide (n > 10)) = true := by
        rcases hrange with h | h <;> simp [h]
      refine ⟨⟨fun _ => Or.inr hrange,
          fun _ => ⟨"Number of questions must be between 1 and 10", ?_⟩⟩, ?_, ?_⟩
      · simp [generate_quiz, hdoc, hcond]
      · intro _ _; simp [generate_quiz, hdoc, hcond]
      · intro _ gw' d'
        simp [generate_quiz, hdoc, hcond]
    · have h1 : ¬ n < 1 := fun h => hrange (Or.inl h)
      have h2 : ¬ 10 < n := fun h => hrange (Or.inr h)
      have hcond : (decide (n < 1) || decide (n > 10)) = false := by
        simp [h1, h2]
      refine ⟨⟨?_, fun hor => absurd hor (by simp [hdoc, h1, h2])⟩, ?_, ?_⟩
      · rintro ⟨m, hm⟩
        unfold generate_quiz at hm
        rw [if_neg hdoc, if_neg (by simp [hcond])] at hm
        cases gw with
        | error e => simp at hm
        | ok response => simp at hm
      · intro _ h11; exfalso; omega
      · intro hor; exact absurd hor (by simp [hdoc, h1, h2])

/-- Witness for C3: with a non-empty document and count 11 the engine
returns the invalid-input error with the `"between 1 and 10"` message,
whatever the gateway outcome. -/
theorem generate_quiz_invalid_input_witness :
    generate_quiz "Some doc" "multiple_choice" 11 (Except.ok "resp") JsonDecode.fail =
      Except.error
        (QuizError.invalidInput "Number of questions must be between 1 and 10") ∧
    (∃ m, generate_quiz "Some doc" "multiple_choice" 11 (Except.ok "resp") JsonDecode.fail =
        Except.error (QuizError.invalidInput m)) ∧
    generate_quiz "Some doc" "multiple_choice" 11 (Except.ok "resp") JsonDecode.fail =
      generate_quiz "Some doc" "multiple_choice" 11 (Except.error "gateway down")
        (JsonDecode.ok []) :=
  ⟨(generate_quiz_invalid_input_iff "Some doc" "multiple_choice" 11 (Except.ok "resp")
        JsonDecode.fail).2.1 (by decide) rfl,
   (generate_quiz_invalid_input_iff "Some doc" "multiple_choice" 11 (Except.ok "resp")
        JsonDecode.fail).1.mpr (Or.inr (Or.inr (by decide))),
   (generate_quiz_invalid_input_iff "Some doc" "multiple_choice" 11 (Except.ok "resp")
        JsonDecode.fail).2.2 (Or.inr (Or.inr (by decide))) (Except.error "gateway down")
        (JsonDecode.ok [])⟩

/-- C4: On a response with no bracketed span, `generate_quiz` returns the
fallback questions unchanged by validation: `min(count, question-lines, 3)`
questions built from the lines containing a question mark, each of the
generic shape for the requested kind, and exactly the one generic
short-answer summary question when no line contains a question mark. -/
theorem generate_quiz_fallback_path :
    ∀ (pdf qt : String) (n : Int) (response : String) (d : JsonDecode),
      trimChars pdf.data ≠ [] → 1 ≤ n → n ≤ 10 →
      hasBracketSpan response.data = false →
      generate_quiz pdf qt n (Except.ok response) d =
          Except.ok (create_fallback_questions response qt n.toNat) ∧
      ((splitNL response.data).filter (fun l => l.contains '?') = [] →
          create_fallback_questions response qt n.toNat = [summary_fallback]) ∧
      ((splitNL response.data).filter (fun l => l.contains '?') ≠ [] →
          (create_fallback_questions response qt n.toNat).length =
            min n.toNat (min ((splitNL response.data).filter (fun l => l.contains '?')).length 3)) ∧
      (∀ q ∈ create_fallback_questions response qt n.toNat,
          (splitNL response.data).filter (fun l => l.contains '?') ≠ [] →
          fallback_shape qt q = true ∧
          ∃ i, i < ((splitNL response.data).filter (fun l => l.contains '?')).length ∧
            q.question =
              some (String.mk (((splitNL response.data).filter (fun l => l.contains '?')).getD i []))) := by
  intro pdf qt n response d hdoc hn1 hn10 hspan
  have hnat : 1 ≤ n.toNat := by omega
  have hcond : (decide (n < 1) || decide (n > 10)) = false := by
    simp; omega
  refine ⟨?_, ?_, ?_, ?_⟩
  · have hp : parse_quiz_response response qt n.toNat d =
        create_fallback_questions response qt n.toNat := by
      unfold parse_quiz_response
      rw [if_neg (by simp [hspan])]
      exact validate_fallback_id response qt n.toNat hnat
    unfold generate_quiz
    rw [if_neg hdoc, if_neg (by simp [hcond])]
    exact congrArg Except.ok hp
  · intro hql
    simp only [create_fallback_questions, hql]
    simp
  · intro hql
    have hpos : 0 < ((splitNL response.data).filter (fun l => l.contains '?')).length :=
      List.length_pos.mpr hql
    simp only [create_fallback_questions]
    rw [if_neg (by simp only [List.map_eq_nil_iff, List.range_eq_nil]; omega)]
    simp
  · intro q hq hql
    have hpos : 0 < ((splitNL response.data).filter (fun l => l.contains '?')).length :=
      List.length_pos.mpr hql
    rcases create_fallback_mem response qt n.toNat q hq with ⟨hk, rfl⟩ | ⟨i, hik, rfl⟩
    · exfalso; omega
    · have hiL : i < ((splitNL response.data).filter (fun l => l.contains '?')).length := by
        have := Nat.lt_of_lt_of_le hik (Nat.min_le_right _ _)
        exact Nat.lt_of_lt_of_le this (Nat.min_le_left _ _)
      exact ⟨fallback_shape_fallback qt _ i, i, hiL, fallback_question_text qt _ i hiL⟩

/-- Witness for C4: a non-JSON response with exactly two question-mark
lines and count 5 yields exactly the two generic multiple-choice fallback
questions. -/
theorem generate_quiz_fallback_path_witness :
    generate_quiz "doc" "multiple_choice" 5
        (Except.ok "What is A?\nWhat is B?\nplain text") JsonDecode.fail =
      Except.ok
        [{ question := some "What is A?", type := some "multiple_choice",
           options := some mcFallbackOptions, correct_answer := some "A) Option 1",
           expected_answer := none,
           explanation := some "This is a fallback question due to parsing issues." },
         { question := some "What is B?", type := some "multiple_choice",
           options := some mcFallbackOptions, correct_answer := some "A) Option 1",
           expected_answer := none,
           explanation := some "This is a fallback question due to parsing issues." }] ∧
    (create_fallback_questions "What is A?\nWhat is B?\nplain text" "multiple_choice"
        (5 : Int).toNat).length = 2 :=
  ⟨(generate_quiz_fallback_path "doc" "multiple_choice" 5
        "What is A?\nWhat is B?\nplain text" JsonDecode.fail
        (by decide) (by decide) (by decide) (by decide)).1,
   (generate_quiz_fallback_path "doc" "multiple_choice" 5
        "What is A?\nWhat is B?\nplain text" JsonDecode.fail
        (by decide) (by decide) (by decide) (by decide)).2.2.1 (by decide)⟩

/-! # Quiz statistics lemmas -/

theorem quiz_counts_fst (answers : List (Nat × String)) :
    ∀ (qs : List RawQuestion) (i : Nat),
      (quiz_counts answers i qs).1 =
        qs.countP (fun q => q.type == some "multiple_choice") := by
  intro qs
  induction qs with
  | nil => intro i; simp [quiz_counts]
  | cons q rest ih =>
    intro i
    by_cases hq : q.type = some "multiple_choice" <;>
      simp [quiz_counts, hq, List.countP_cons, ih (i + 1)]

theorem quiz_counts_snd (answers : List (Nat × String)) :
    ∀ (qs : List RawQuestion) (i : Nat),
      (quiz_counts answers i qs).2 =
        ((List.enumFrom i qs).filter
          (fun p => p.2.type == some "multiple_choice" && mc_is_correct answers p.1 p.2)).length := by
  intro qs
  induction qs with
  | nil => intro i; simp [quiz_counts]
  | cons q rest ih =>
    intro i
    by_cases hq : q.type = some "multiple_choice"
    · by_cases hc : mc_is_correct answers i q = true
      · simp [quiz_counts, hq, hc, List.enumFrom, List.filter_cons, ih (i + 1)]
      · simp [quiz_counts, hq, hc, List.enumFrom, List.filter_cons, ih (i + 1)]
    · simp [quiz_counts, hq, List.enumFrom, List.filter_cons, ih (i + 1)]

/-- C5: `get_quiz_statistics` returns the question count, the answer-entry
count, the multiple-choice count, the count of indices answered with the
question's correct answer, accuracy = correct/mc·100 (0 when there are no
multiple-choice questions) and completion = answered/total·100 (0 when
there are no questions).  The hypotheses restrict to inputs on which the
Python code does not raise: distinct answer keys (a dict) and a present
`correct_answer` on every multiple-choice question. -/
theorem get_quiz_statistics_spec :
    ∀ (questions : List RawQuestion) (answers : List (Nat × String)),
      (answers.map Prod.fst).Nodup →
      (∀ q ∈ questions, q.type = some "multiple_choice" → q.correct_answer.isSome) →
      (get_quiz_statistics questions answers).total_questions = questions.length ∧
      (get_quiz_statistics questions answers).answered_questions = answers.length ∧
      (get_quiz_statistics questions answers).multiple_choice_questions =
        questions.countP (fun q => q.type == some "multiple_choice") ∧
      (get_quiz_statistics questions answers).correct_answers =
        (questions.enum.filter
          (fun p => p.2.type == some "multiple_choice" && mc_is_correct answers p.1 p.2)).length ∧
      (get_quiz_statistics questions answers).accuracy_percentage =
        (if (get_quiz_statistics questions answers).multiple_choice_questions = 0 then 0
         else ((get_quiz_statistics questions answers).correct_answers : ℚ) /
           ((get_quiz_statistics questions answers).multiple_choice_questions : ℚ) * 100) ∧
      (get_quiz_statistics questions answers).completion_percentage =
        (if questions.length = 0 then 0
         else (answers.length : ℚ) / (questions.length : ℚ) * 100) := by
  intro qs ans _ _
  refine ⟨rfl, rfl, quiz_counts_fst ans qs 0, quiz_counts_snd ans qs 0, ?_, ?_⟩
  · simp only [get_quiz_statistics]
    rcases Nat.eq_zero_or_pos (quiz_counts ans 0 qs).1 with h | h
    · simp [h]
    · simp [h, Nat.pos_iff_ne_zero.mp h]
  · simp only [get_quiz_statistics]
    rcases Nat.eq_zero_or_pos qs.length with h | h
    · simp [h]
    · simp [h, Nat.pos_iff_ne_zero.mp h]

/-- Witness for C5: one multiple-choice question answered with its correct
answer gives accuracy 100.0 (the spec's scenario). -/
theorem get_quiz_statistics_spec_witness :
    ((get_quiz_statistics
        [{ question := some "Q", type := some "multiple_choice",
           options := some ["A) Option 1", "B) Option 2"],
           correct_answer := some "A) Option 1",
           expected_answer := none, explanation := none }]
        [(0, "A) Option 1")]).accuracy_percentage =
      (if (get_quiz_statistics
            [{ question := some "Q", type := some "multiple_choice",
               options := some ["A) Option 1", "B) Option 2"],
               correct_answer := some "A) Option 1",
               expected_answer := none, explanation := none }]
            [(0, "A) Option 1")]).multiple_choice_questions = 0 then 0
       else ((get_quiz_statistics
            [{ question := some "Q", type := some "multiple_choice",
               options := some ["A) Option 1", "B) Option 2"],
               correct_answer := some "A) Option 1",
               expected_answer := none, explanation := none }]
            [(0, "A) Option 1")]).correct_answers : ℚ) /
         ((get_quiz_statistics
            [{ question := some "Q", type := some "multiple_choice",
               options := some ["A) Option 1", "B) Option 2"],
               correct_answer := some "A) Option 1",
               expected_answer := none, explanation := none }]
            [(0, "A) Option 1")]).multiple_choice_questions : ℚ) * 100)) ∧
    (get_quiz_statistics
        [{ question := some "Q", type := some "multiple_choice",
           options := some ["A) Option 1", "B) Option 2"],
           correct_answer := some "A) Option 1",
           expected_answer := none, explanation := none }]
        [(0, "A) Option 1")]).accuracy_percentage = 100 :=
  ⟨(get_quiz_statistics_spec
      [{ question := some "Q", type := some "multiple_choice",
         options := some ["A) Option 1", "B) Option 2"],
         correct_answer := some "A) Option 1",
         expected_answer := none, explanation := none }]
      [(0, "A) Option 1")] (by decide) (by decide)).2.2.2.2.1,
   by norm_num [get_quiz_statistics, quiz_counts, mc_is_correct]⟩

/-- C9: `get_quiz_statistics` counts every entry of the answers mapping as
answered without an index-range check, so completion is
len(answers)/len(questions)·100 unclamped; with more answer entries than
questions (and at least one question) it exceeds 100. -/
theorem completion_percentage_unclamped :
    ∀ (questions : List RawQuestion) (answers : List (Nat × String)),
      (answers.map Prod.fst).Nodup →
      (questions ≠ [] →
        (get_quiz_statistics questions answers).completion_percentage =
          (answers.length : ℚ) / (questions.length : ℚ) * 100) ∧
      (questions ≠ [] → questions.length < answers.length →
        100 < (get_quiz_statistics questions answers).completion_percentage) := by
  intro qs ans _
  have hcomp : qs ≠ [] → (get_quiz_statistics qs ans).completion_percentage
      = (ans.length : ℚ) / (qs.length : ℚ) * 100 := by
    intro h
    have hpos : 0 < qs.length := List.length_pos.mpr h
    simp [get_quiz_statistics, hpos]
  refine ⟨hcomp, ?_⟩
  intro h hlt
  rw [hcomp h]
  have hq : (0 : ℚ) < qs.length := by exact_mod_cast List.length_pos.mpr h
  have hlt' : (qs.length : ℚ) < ans.length := by exact_mod_cast hlt
  have h1 : (1 : ℚ) < (ans.length : ℚ) / (qs.length : ℚ) := (one_lt_div hq).mpr hlt'
  calc (100 : ℚ) = 1 * 100 := by ring
    _ < (ans.length : ℚ) / (qs.length : ℚ) * 100 :=
        mul_lt_mul_of_pos_right h1 (by norm_num)

/-- Witness for C9: one question but two answer entries gives completion
200, above 100. -/
theorem completion_percentage_unclamped_witness :
    (get_quiz_statistics
        [{ question := some "Q", type := some "short_answer",
           options := none, correct_answer := none,
           expected_answer := some "a", explanation := none }]
        [(0, "x"), (1, "y")]).completion_percentage = (2 : ℚ) / (1 : ℚ) * 100 ∧
    100 < (get_quiz_statistics
        [{ question := some "Q", type := some "short_answer",
           options := none, correct_answer := none,
           expected_answer := some "a", explanation := none }]
        [(0, "x"), (1, "y")]).completion_percentage :=
  ⟨(completion_percentage_unclamped
      [{ question := some "Q", type := some "short_answer",
         options := none, correct_answer := none,
         expected_answer := some "a", explanation := none }]
      [(0, "x"), (1, "y")] (by decide)).1 (by decide),
   (completion_percentage_unclamped
      [{ question := some "Q", type := some "short_answer",
         options := none, correct_answer := none,
         expected_answer := some "a", explanation := none }]
      [(0, "x"), (1, "y")] (by decide)).2 (by decide) (by decide)⟩

/-! # Chat manager lemmas -/

theorem lookup_none_not_mem_keys : ∀ (cache : List (String × String)) (k : String),
    cache.lookup k = none → k ∉ cache.map Prod.fst := by
  intro cache k
  induction cache with
  | nil => intro _; simp
  | cons e rest ih =>
    rcases e with ⟨k1, v1⟩
    intro h
    by_cases hke : k = k1
    · subst hke; simp [List.lookup] at h
    · have hbe : (k == k1) = false := beq_eq_false_iff_ne.mpr hke
      simp only [List.lookup, hbe] at h
      simp only [List.map_cons, List.mem_cons, not_or]
      exact ⟨hke, ih h⟩

/-- C8: the key-points cache keeps at most one entry per document hash
(distinct keys are preserved), a cached entry is returned unchanged with
no gateway call, a first successful derivation stores the result and any
later request for the same text is then served from the cache with zero
calls, requests never remove entries, and only the explicit clear empties
the cache — after which the next request makes exactly one generation
call. -/
theorem key_point_cache_spec :
    ∀ (hash : String → String) (st : ChatState) (pdf : String),
      ((st.pdf_cache.map Prod.fst).Nodup →
        ∀ gw, (((extract_key_points hash gw st pdf).2.1).pdf_cache.map Prod.fst).Nodup) ∧
      (∀ v, st.pdf_cache.lookup (hash pdf) = some v →
        ∀ gw, extract_key_points hash gw st pdf = (v, st, 0)) ∧
      (∀ kp, st.pdf_cache.lookup (hash pdf) = none →
        extract_key_points hash (Except.ok kp) st pdf =
          (kp, ⟨(hash pdf, kp) :: st.pdf_cache⟩, 1) ∧
        ∀ gw', extract_key_points hash gw' ⟨(hash pdf, kp) :: st.pdf_cache⟩ pdf =
          (kp, ⟨(hash pdf, kp) :: st.pdf_cache⟩, 0)) ∧
      (∀ gw k v, st.pdf_cache.lookup k = some v →
        ((extract_key_points hash gw st pdf).2.1).pdf_cache.lookup k = some v) ∧
      clear_cache st = ⟨[]⟩ ∧
      (∀ gw', (extract_key_points hash gw' (clear_cache st) pdf).2.2 = 1) := by
  intro hash st pdf
  refine ⟨?_, ?_, ?_, ?_, rfl, ?_⟩
  · intro hnd gw
    cases hlk : st.pdf_cache.lookup (hash pdf) with
    | some v => simp [extract_key_points, hlk, hnd]
    | none =>
      cases gw with
      | ok kp =>
        simp only [extract_key_points, hlk]
        simp only [List.map_cons, List.nodup_cons]
        exact ⟨lookup_none_not_mem_keys _ _ hlk, hnd⟩
      | error e => simp [extract_key_points, hlk, hnd]
  · intro v hv gw
    simp [extract_key_points, hv]
  · intro kp hn
    constructor
    · simp [extract_key_points, hn]
    · intro gw'
      simp [extract_key_points, List.lookup]
  · intro gw k v hkv
    cases hlk : st.pdf_cache.lookup (hash pdf) with
    | some w => simpa [extract_key_points, hlk] using hkv
    | none =>
      cases gw with
      | ok kp =>
        simp only [extract_key_points, hlk]
        by_cases hke : k = hash pdf
        · subst hke; rw [hkv] at hlk; exact Option.noConfusion hlk
        · simpa [List.lookup, beq_eq_false_iff_ne.mpr hke] using hkv
      | error e => simpa [extract_key_points, hlk] using hkv
  · intro gw'
    cases gw' with
    | ok kp => simp [extract_key_points, clear_cache, List.lookup]
    | error e => simp [extract_key_points, clear_cache, List.lookup]

/-- Witness for C8: starting from an empty cache, a successful derivation
for document `"doc"` stores one entry; the next request for `"doc"` is
answered from the cache with zero gateway calls even though the gateway
would now fail; clearing empties the cache and the next request makes
exactly one call. -/
theorem key_point_cache_spec_witness :
    extract_key_points (fun s => s) (Except.ok "key points") ⟨[]⟩ "doc" =
      ("key points", ⟨[("doc", "key points")]⟩, 1) ∧
    extract_key_points (fun s => s) (Except.error "down") ⟨[("doc", "key points")]⟩ "doc" =
      ("key points", ⟨[("doc", "key points")]⟩, 0) ∧
    clear_cache ⟨[("doc", "key points")]⟩ = ⟨[]⟩ ∧
    (extract_key_points (fun s => s) (Except.ok "fresh")
        (clear_cache ⟨[("doc", "key points")]⟩) "doc").2.2 = 1 :=
  ⟨((key_point_cache_spec (fun s => s) ⟨[]⟩ "doc").2.2.1 "key points" rfl).1,
   ((key_point_cache_spec (fun s => s) ⟨[]⟩ "doc").2.2.1 "key points" rfl).2
      (Except.error "down"),
   (key_point_cache_spec (fun s => s) ⟨[("doc", "key points")]⟩ "doc").2.2.2.2.1,
   (key_point_cache_spec (fun s => s) ⟨[("doc", "key points")]⟩ "doc").2.2.2.2.2
      (Except.ok "fresh")⟩

/-- C6 counterexample: an internal stage failure that is not surfaced — the
key-point summarization gateway call fails (falling back to the truncated
document, one call made, nothing cached) yet `get_response` still returns a
successful answer instead of a `ChatError`. -/
theorem chat_key_point_failure_not_surfaced :
    extract_key_points (fun s => s) (Except.error "gateway down") ⟨[]⟩ "Some doc" =
      ("Some doc", ⟨[]⟩, 1) ∧
    get_response (fun s => s) (Except.error "gateway down") (Except.ok "An answer")
        ⟨[]⟩ [] "What is X?" "Some doc" = Except.ok ("An answer", ⟨[]⟩) :=
  ⟨rfl, rfl⟩

/-- C6 (amended): `get_response` fails exactly when the question strips to
empty or the final answer-generation gateway call fails; each failure is
surfaced as the single wrapped chat error carrying the original message,
and no answer accompanies an error (the error holds only a message).  A
gateway failure during key-point summarization is swallowed by the
fallback inside `_extract_key_points`: the call still succeeds. -/
theorem get_response_error_spec :
    ∀ (hash : String → String) (kpGw aGw : Except String String) (st : ChatState)
      (hist : List Msg) (q pdf : String),
      ((∃ e, get_response hash kpGw aGw st hist q pdf = Except.error e) ↔
        (trimChars q.data = [] ∨ ∃ m, aGw = Except.error m)) ∧
      (trimChars q.data = [] →
        get_response hash kpGw aGw st hist q pdf =
          Except.error "Failed to get chat response: Question cannot be empty") ∧
      (∀ m, trimChars q.data ≠ [] → aGw = Except.error m →
        get_response hash kpGw aGw st hist q pdf =
          Except.error ("Failed to get chat response: " ++ m)) ∧
      (∀ m r, trimChars q.data ≠ [] → kpGw = Except.error m → aGw = Except.ok r →
        ∃ v, get_response hash kpGw aGw st hist q pdf = Except.ok v) := by
  intro hash kpGw aGw st hist q pdf
  by_cases hq : trimChars q.data = []
  · refine ⟨⟨fun _ => Or.inl hq,
      fun _ => ⟨"Failed to get chat response: Question cannot be empty",
        by simp [get_response, hq]⟩⟩,
      fun _ => by simp [get_response, hq], ?_, ?_⟩
    · intro m hne _; exact absurd hq hne
    · intro m r hne _ _; exact absurd hq hne
  · cases aGw with
    | error m0 =>
      refine ⟨⟨fun _ => Or.inr ⟨m0, rfl⟩,
        fun _ => ⟨"Failed to get chat response: " ++ m0, by simp [get_response, hq]⟩⟩,
        fun h => absurd h hq, ?_, ?_⟩
      · intro m _ hm; cases hm; simp [get_response, hq]
      · intro m r _ _ hr; exact Except.noConfusion hr
    | ok r0 =>
      refine ⟨⟨?_, ?_⟩, fun h => absurd h hq, ?_, ?_⟩
      · rintro ⟨e, he⟩
        simp [get_response, hq] at he
      · rintro (h | ⟨m, hm⟩)
        · exact absurd h hq
        · exact Except.noConfusion hm
      · intro m _ hm; exact Except.noConfusion hm
      · intro m r _ _ _
        exact ⟨(format_response r0, (build_chat_context hash kpGw st hist pdf).2.1),
          by simp [get_response, hq]⟩

/-- Witness for C6 (amended): a failing answer call is wrapped with the
chat prefix and the original message; a failing key-point call with a
succeeding answer call still yields a successful result. -/
theorem get_response_error_spec_witness :
    get_response (fun s => s) (Except.ok "kp") (Except.error "boom")
        ⟨[]⟩ [] "Hi" "doc" =
      Except.error ("Failed to get chat response: " ++ "boom") ∧
    (∃ v, get_response (fun s => s) (Except.error "kp fail") (Except.ok "ans")
        ⟨[]⟩ [] "Hi" "doc" = Except.ok v) :=
  ⟨(get_response_error_spec (fun s => s) (Except.ok "kp") (Except.error "boom")
      ⟨[]⟩ [] "Hi" "doc").2.2.1 "boom" (by decide) rfl,
   (get_response_error_spec (fun s => s) (Except.error "kp fail") (Except.ok "ans")
      ⟨[]⟩ [] "Hi" "doc").2.2.2 "kp fail" "ans" (by decide) rfl rfl⟩

/-! # Text cleaning lemmas -/

theorem splitOnChar_ne_nil (sep : Char) : ∀ (l : List Char), splitOnChar sep l ≠ [] := by
  intro l
  cases l with
  | nil => simp [splitOnChar]
  | cons c rest =>
    simp only [splitOnChar]
    split <;> simp

theorem mem_splitOnChar_not_sep (sep : Char) :
    ∀ (l : List Char), ∀ chunk ∈ splitOnChar sep l, sep ∉ chunk := by
  intro l
  induction l with
  | nil => intro chunk h; simp [splitOnChar] at h; simp [h]
  | cons c rest ih =>
    intro chunk h
    simp only [splitOnChar] at h
    split at h
    · rcases List.mem_cons.mp h with rfl | h2
      · simp
      · exact ih chunk h2
    · rename_i hc
      rcases List.mem_cons.mp h with rfl | h2
      · intro hmem
        rcases List.mem_cons.mp hmem with rfl | h3
        · exact hc rfl
        · rcases hr : splitOnChar sep rest with _ | ⟨h0, t0⟩
          · exact splitOnChar_ne_nil sep rest hr
          · rw [hr] at h3
            simp only [List.headD_cons] at h3
            exact ih h0 (hr ▸ List.mem_cons_self h0 t0) h3
      · rcases hr : splitOnChar sep rest with _ | ⟨h0, t0⟩
        · exact absurd hr (splitOnChar_ne_nil sep rest)
        · rw [hr] at h2
          simp only [List.tail_cons] at h2
          exact ih chunk (hr ▸ List.mem_cons_of_mem h0 h2)

theorem head_dropWhile_false (p : Char → Bool) :
    ∀ (l : List Char) (c : Char), (l.dropWhile p).head? = some c → p c = false := by
  intro l
  induction l with
  | nil => intro c h; simp [List.dropWhile] at h
  | cons a rest ih =>
    intro c h
    rw [List.dropWhile_cons] at h
    split at h
    · exact ih c h
    · rename_i ha
      simp only [List.head?_cons, Option.some.injEq] at h
      subst h
      exact Bool.not_eq_true _ ▸ Bool.of_not_eq_true ha

theorem mem_dropWhile_of_not (p : Char → Bool) :
    ∀ (l : List Char) (c : Char), c ∈ l → p c = false → c ∈ l.dropWhile p := by
  intro l
  induction l with
  | nil => intro c h _; simp at h
  | cons a rest ih =>
    intro c h hpc
    rw [List.dropWhile_cons]
    split
    · rename_i hpa
      rcases List.mem_cons.mp h with rfl | h2
      · rw [hpa] at hpc; exact Bool.noConfusion hpc
      · exact ih c h2 hpc
    · exact h

theorem mem_of_mem_trimChars {l : List Char} {c : Char} (h : c ∈ trimChars l) : c ∈ l := by
  unfold trimChars at h
  rw [List.mem_reverse] at h
  have h1 := (List.dropWhile_sublist (p := isSpaceChar)
    (l := (l.dropWhile isSpaceChar).reverse)).mem h
  rw [List.mem_reverse] at h1
  exact (List.dropWhile_sublist (p := isSpaceChar) (l := l)).mem h1

theorem trimChars_ne_nil_of_mem {l : List Char} {c : Char}
    (h : c ∈ l) (hc : isSpaceChar c = false) : trimChars l ≠ [] := by
  intro hnil
  have h1 : c ∈ l.dropWhile isSpaceChar := mem_dropWhile_of_not _ l c h hc
  have h2 : c ∈ (l.dropWhile isSpaceChar).reverse := List.mem_reverse.mpr h1
  have h3 : c ∈ (l.dropWhile isSpaceChar).reverse.dropWhile isSpaceChar :=
    mem_dropWhile_of_not _ _ c h2 hc
  have h4 : c ∈ trimChars l := List.mem_reverse.mpr h3
  rw [hnil] at h4
  simp at h4

theorem trimChars_nil_of_all_space {l : List Char}
    (h : ∀ c ∈ l, isSpaceChar c = true) : trimChars l = [] := by
  unfold trimChars
  rw [List.dropWhile_eq_nil_iff.mpr h]
  simp

theorem trimChars_head_false {l : List Char} {c : Char} {rest : List Char}
    (h : trimChars l = c :: rest) : isSpaceChar c = false := by
  have hd : l.dropWhile isSpaceChar =
      (c :: rest) ++ ((l.dropWhile isSpaceChar).reverse.takeWhile isSpaceChar).reverse := by
    conv_lhs => rw [← List.reverse_reverse (l.dropWhile isSpaceChar),
      ← List.takeWhile_append_dropWhile
        (p := isSpaceChar) (l := (l.dropWhile isSpaceChar).reverse)]
    rw [List.reverse_append]
    unfold trimChars at h
    rw [h]
  exact head_dropWhile_false isSpaceChar l c (by rw [hd]; simp)

theorem trimChars_last_false {l : List Char} {c : Char} {rest : List Char}
    (h : (trimChars l).reverse = c :: rest) : isSpaceChar c = false := by
  unfold trimChars at h
  rw [List.reverse_reverse] at h
  exact head_dropWhile_false isSpaceChar (l.dropWhile isSpaceChar).reverse c (by rw [h]; rfl)

theorem lineClean_trimChars (l : List Char) : lineClean (trimChars l) = true := by
  unfold lineClean
  rcases h1 : trimChars l with _ | ⟨c, rest⟩
  · simp
  · rcases h2 : (c :: rest).reverse with _ | ⟨d, rest2⟩
    · simp at h2
    · have hc : isSpaceChar c = false := trimChars_head_false h1
      have hd : isSpaceChar d = false := trimChars_last_false (l := l) (by rw [h1, h2])
      simp [h2, hc, hd]

theorem hasNN_append_of_no_nl : ∀ (l m : List Char), '\n' ∉ l →
    hasNN (l ++ m) = hasNN m := by
  intro l
  induction l with
  | nil => intro m _; rfl
  | cons a l2 ih =>
    intro m hnl
    have ha : a ≠ '\n' := fun h => hnl (h ▸ List.mem_cons_self a l2)
    have hl2 : '\n' ∉ l2 := fun h => hnl (List.mem_cons_of_mem a h)
    cases l2 with
    | nil =>
      cases m with
      | nil => rfl
      | cons b m2 =>
        show (decide (a = '\n') && decide (b = '\n') || hasNN (b :: m2)) = hasNN (b :: m2)
        simp [ha]
    | cons b l3 =>
      calc hasNN ((a :: b :: l3) ++ m)
          = (decide (a = '\n') && decide (b = '\n') || hasNN ((b :: l3) ++ m)) := rfl
        _ = hasNN ((b :: l3) ++ m) := by simp [ha]
        _ = hasNN m := ih m hl2

theorem joinNL_cons_append : ∀ (l : List Char) (ls : List (List Char)),
    joinNL (l :: ls) = l ++ (if ls = [] then [] else '\n' :: joinNL ls) := by
  intro l ls
  cases ls with
  | nil => simp [joinNL]
  | cons l2 ls2 => simp [joinNL]

theorem hasNN_cons_nl (c : Char) (x : List Char) (hc : c ≠ '\n') :
    hasNN ('\n' :: c :: x) = hasNN (c :: x) := by
  show (decide ('\n' = '\n') && decide (c = '\n') || hasNN (c :: x)) = hasNN (c :: x)
  simp [hc]

theorem hasNN_joinNL : ∀ (ls : List (List Char)),
    (∀ l ∈ ls, l ≠ [] ∧ '\n' ∉ l) → hasNN (joinNL ls) = false := by
  intro ls
  induction ls with
  | nil => intro _; rfl
  | cons l ls2 ih =>
    intro hall
    rcases hall l (List.mem_cons_self l ls2) with ⟨hne, hnl⟩
    cases ls2 with
    | nil =>
      show hasNN (joinNL [l]) = false
      have h0 := hasNN_append_of_no_nl l [] hnl
      rw [List.append_nil] at h0
      exact h0.trans rfl
    | cons l2 ls3 =>
      have hrest : hasNN (joinNL (l2 :: ls3)) = false :=
        ih (fun l3 h3 => hall l3 (List.mem_cons_of_mem l h3))
      rcases hall l2 (List.mem_cons_of_mem l (List.mem_cons_self l2 ls3)) with ⟨hne2, hnl2⟩
      show hasNN (l ++ '\n' :: joinNL (l2 :: ls3)) = false
      rw [hasNN_append_of_no_nl l _ hnl]
      cases hl2 : l2 with
      | nil => exact absurd hl2 hne2
      | cons c2 l2t =>
        subst hl2
        have hc2 : c2 ≠ '\n' := fun h => hnl2 (h ▸ List.mem_cons_self c2 l2t)
        have hjoin : joinNL ((c2 :: l2t) :: ls3) =
            c2 :: (l2t ++ (if ls3 = [] then [] else '\n' :: joinNL ls3)) := by
          rw [joinNL_cons_append]; rfl
        rw [hjoin, hasNN_cons_nl c2 _ hc2, ← hjoin]
        exact hrest

theorem hasTriple_imp_hasNN : ∀ (l : List Char), hasTriple l = true → hasNN l = true := by
  intro l
  induction l with
  | nil => intro h; exact h
  | cons a l2 ih =>
    intro h
    cases l2 with
    | nil => simp [hasTriple] at h
    | cons b l3 =>
      cases l3 with
      | nil => simp [hasTriple] at h
      | cons c l4 =>
        show (decide (a = '\n') && decide (b = '\n') || hasNN (b :: c :: l4)) = true
        have h' : ((decide (a = '\n') && decide (b = '\n') && decide (c = '\n')) ||
            hasTriple (b :: c :: l4)) = true := h
        simp only [Bool.or_eq_true, Bool.and_eq_true, decide_eq_true_eq] at h' ⊢
        rcases h' with ⟨⟨ha, hb⟩, _⟩ | h2
        · exact Or.inl ⟨ha, hb⟩
        · exact Or.inr (ih h2)

theorem collapseLoop_id (s : List Char) (fuel : Nat) (h : hasTriple s = false) :
    collapseLoop fuel s = s := by
  cases fuel with
  | zero => rfl
  | succ f => simp [collapseLoop, h]

theorem splitOnChar_no_sep (sep : Char) :
    ∀ (l : List Char), sep ∉ l → splitOnChar sep l = [l] := by
  intro l
  induction l with
  | nil => intro _; rfl
  | cons c rest ih =>
    intro h
    have hc : c ≠ sep := fun he => h (he ▸ List.mem_cons_self c rest)
    have hrest : sep ∉ rest := fun hm => h (List.mem_cons_of_mem c hm)
    simp only [splitOnChar]
    rw [if_neg hc, ih hrest]
    simp

theorem splitOnChar_append_sep (sep : Char) :
    ∀ (l m : List Char), sep ∉ l →
      splitOnChar sep (l ++ sep :: m) = l :: splitOnChar sep m := by
  intro l
  induction l with
  | nil => intro m _; simp [splitOnChar]
  | cons c rest ih =>
    intro m h
    have hc : c ≠ sep := fun he => h (he ▸ List.mem_cons_self c rest)
    have hrest : sep ∉ rest := fun hm => h (List.mem_cons_of_mem c hm)
    simp only [List.cons_append, splitOnChar]
    rw [if_neg hc, List.append_eq, ih m hrest]
    simp

theorem splitNL_joinNL : ∀ (ls : List (List Char)), ls ≠ [] →
    (∀ l ∈ ls, '\n' ∉ l) → splitNL (joinNL ls) = ls := by
  intro ls
  induction ls with
  | nil => intro h _; exact absurd rfl h
  | cons l ls2 ih =>
    intro _ hall
    cases ls2 with
    | nil =>
      show splitNL (joinNL [l]) = [l]
      exact splitOnChar_no_sep '\n' l (hall l (List.mem_cons_self l []))
    | cons l2 ls3 =>
      show splitNL (l ++ '\n' :: joinNL (l2 :: ls3)) = l :: l2 :: ls3
      unfold splitNL
      rw [splitOnChar_append_sep '\n' l _ (hall l (List.mem_cons_self l _))]
      rw [show splitOnChar '\n' (joinNL (l2 :: ls3)) = splitNL (joinNL (l2 :: ls3)) from rfl]
      rw [ih (List.cons_ne_nil l2 ls3) (fun l3 h3 => hall l3 (List.mem_cons_of_mem l h3))]

theorem mem_chunk_of_mem (sep : Char) :
    ∀ (l : List Char) (c : Char), c ∈ l → c ≠ sep →
      ∃ chunk ∈ splitOnChar sep l, c ∈ chunk := by
  intro l
  induction l with
  | nil => intro c h _; simp at h
  | cons a rest ih =>
    intro c h hc
    simp only [splitOnChar]
    split
    · rename_i ha
      rcases List.mem_cons.mp h with rfl | h2
      · exact absurd ha hc
      · rcases ih c h2 hc with ⟨chunk, hch, hmem⟩
        exact ⟨chunk, List.mem_cons_of_mem [] hch, hmem⟩
    · rcases hr : splitOnChar sep rest with _ | ⟨h0, t0⟩
      · exact absurd hr (splitOnChar_ne_nil sep rest)
      · simp only [List.headD_cons, List.tail_cons]
        rcases List.mem_cons.mp h with rfl | h2
        · exact ⟨c :: h0, List.mem_cons_self _ _, List.mem_cons_self c h0⟩
        · rcases ih c h2 hc with ⟨chunk, hch, hmem⟩
          rw [hr] at hch
          rcases List.mem_cons.mp hch with rfl | h3
          · exact ⟨a :: chunk, List.mem_cons_self _ _, List.mem_cons_of_mem a hmem⟩
          · exact ⟨chunk, List.mem_cons_of_mem _ h3, hmem⟩

theorem cleanLines_props (l : List Char) :
    ∀ line ∈ cleanLines l, line ≠ [] ∧ '\n' ∉ line ∧ lineClean line = true := by
  intro line h
  unfold cleanLines at h
  rcases List.mem_filter.mp h with ⟨hmap, hne⟩
  rcases List.mem_map.mp hmap with ⟨chunk, hchunk, rfl⟩
  refine ⟨by simpa using hne, ?_, lineClean_trimChars chunk⟩
  intro hnl
  exact mem_splitOnChar_not_sep '\n' l chunk hchunk (mem_of_mem_trimChars hnl)

theorem cleanLines_ne_nil {l : List Char} (h : trimChars l ≠ []) : cleanLines l ≠ [] := by
  have hex : ∃ c ∈ l, isSpaceChar c = false := by
    by_contra hno
    push_neg at hno
    exact h (trimChars_nil_of_all_space (fun c hc => by
      have := hno c hc
      revert this
      cases isSpaceChar c <;> simp))
  rcases hex with ⟨c, hcl, hcs⟩
  have hcnl : c ≠ '\n' := by
    intro he; subst he; simp [isSpaceChar] at hcs
  rcases mem_chunk_of_mem '\n' l c hcl hcnl with ⟨chunk, hch, hmem⟩
  have htc : trimChars chunk ≠ [] := trimChars_ne_nil_of_mem hmem hcs
  intro hnil
  have : trimChars chunk ∈ cleanLines l := by
    unfold cleanLines
    exact List.mem_filter.mpr ⟨List.mem_map.mpr ⟨chunk, hch, rfl⟩, by simpa using htc⟩
  rw [hnil] at this
  simp at this

theorem joinNL_ne_nil : ∀ (ls : List (List Char)), ls ≠ [] →
    (∀ l ∈ ls, l ≠ []) → joinNL ls ≠ [] := by
  intro ls
  cases ls with
  | nil => intro h _; exact absurd rfl h
  | cons l ls2 =>
    intro _ hall
    rw [joinNL_cons_append]
    have := hall l (List.mem_cons_self l ls2)
    rcases l with _ | ⟨c, lt⟩
    · exact absurd rfl this
    · simp

theorem clean_text_data (s : String) :
    (clean_text s).data = joinNL (cleanLines s.data) ∧
    hasNN (joinNL (cleanLines s.data)) = false := by
  have hnn : hasNN (joinNL (cleanLines s.data)) = false :=
    hasNN_joinNL _ (fun l h =>
      ⟨(cleanLines_props s.data l h).1, (cleanLines_props s.data l h).2.1⟩)
  have htr : hasTriple (joinNL (cleanLines s.data)) = false := by
    cases htr : hasTriple (joinNL (cleanLines s.data)) with
    | false => rfl
    | true => rw [hasTriple_imp_hasNN _ htr] at hnn; exact Bool.noConfusion hnn
  exact ⟨congrArg String.data (congrArg String.mk (collapseLoop_id _ _ htr)), hnn⟩

theorem splitNN_no_nn : ∀ (l : List Char), hasNN l = false → splitNN l = [l] := by
  intro l
  induction l with
  | nil => intro _; rfl
  | cons a l2 ih =>
    intro h
    cases l2 with
    | nil => rfl
    | cons b l3 =>
      simp only [hasNN, Bool.or_eq_false_iff, Bool.and_eq_false_iff] at h
      rcases h with ⟨hab, h2⟩
      have hnotboth : ¬(a = '\n' && b = '\n') = true := by
        simp only [Bool.and_eq_true, decide_eq_true_eq]
        rintro ⟨rfl, rfl⟩
        simp at hab
      simp only [splitNN, if_neg hnotboth]
      rw [ih h2]
      simp

theorem clean_text_spec_of_ne (E : String) (htr : trimChars E.data ≠ []) :
    clean_text E ≠ "" ∧
    (∀ line ∈ splitNL (clean_text E).data, line ≠ [] ∧ lineClean line = true) ∧
    hasTriple (clean_text E).data = false := by
  obtain ⟨hdata, hnn⟩ := clean_text_data E
  have hprops := cleanLines_props E.data
  have hcl_ne : cleanLines E.data ≠ [] := cleanLines_ne_nil htr
  have hjoin_ne : joinNL (cleanLines E.data) ≠ [] :=
    joinNL_ne_nil _ hcl_ne (fun l h => (hprops l h).1)
  have hsplit : splitNL ((clean_text E).data) = cleanLines E.data := by
    rw [hdata]
    exact splitNL_joinNL _ hcl_ne (fun l h => (hprops l h).2.1)
  refine ⟨?_, ?_, ?_⟩
  · intro he
    apply hjoin_ne
    rw [← hdata, he]
  · intro line hl
    rw [hsplit] at hl
    exact ⟨(hprops line hl).1, (hprops line hl).2.2⟩
  · rw [hdata]
    cases htrip : hasTriple (joinNL (cleanLines E.data)) with
    | false => rfl
    | true => rw [hasTriple_imp_hasNN _ htrip] at hnn; exact Bool.noConfusion hnn

/-! # Claim theorems: text extraction -/

/-- C7: whenever extraction succeeds, the returned text is non-empty, every
line of it is non-empty with no leading or trailing whitespace, and it
contains no run of three or more consecutive newline characters. -/
theorem extract_text_clean_spec :
    ∀ (pageTexts : List (Option String)) (txt : String),
      extract_text pageTexts = Except.ok txt →
      txt ≠ "" ∧
      (∀ line ∈ splitNL txt.data, line ≠ [] ∧ lineClean line = true) ∧
      hasTriple txt.data = false := by
  intro pts txt h
  simp only [extract_text] at h
  split at h
  · exact Except.noConfusion h
  · rename_i htr
    have h2 := Except.ok.inj h
    subst h2
    exact clean_text_spec_of_ne _ htr

/-- Witness for C7: a concrete three-page document (one page unreadable)
extracts to clean text satisfying the three guarantees. -/
theorem extract_text_clean_spec_witness :
    ("Hello world\nLine two\nPage 2" : String) ≠ "" ∧
    (∀ line ∈ splitNL ("Hello world\nLine two\nPage 2" : String).data,
        line ≠ [] ∧ lineClean line = true) ∧
    hasTriple ("Hello world\nLine two\nPage 2" : String).data = false :=
  extract_text_clean_spec [some "  Hello world \nLine two  ", none, some " Page 2 "]
    "Hello world\nLine two\nPage 2" rfl

/-- C10: the cleaned text contains no empty line at all — no two
consecutive newline characters occur — so all paragraph breaks are removed
and `get_text_stats` on a cleaned text reports a paragraph count of at
most 1. -/
theorem clean_text_no_blank_lines :
    ∀ (s : String),
      hasNN (clean_text s).data = false ∧
      (get_text_stats (clean_text s)).paragraph_count ≤ 1 := by
  intro s
  obtain ⟨hdata, hnn⟩ := clean_text_data s
  have hnn' : hasNN (clean_text s).data = false := by rw [hdata]; exact hnn
  refine ⟨hnn', ?_⟩
  show ((splitNN (clean_text s).data).filter (fun p => trimChars p ≠ [])).length ≤ 1
  rw [splitNN_no_nn _ hnn']
  exact List.length_filter_le _ _

end StudyBuddy
